import Mathlib

/-!
Shallow embedding of the factoid store of `src/modules/factoid.py`
(`get_channel_data` / `set_channel_data` / `get_value` / `add_facts` /
`set_alias` / `delete_value`) and proofs about its data model.

A channel's cached state is the pair of dicts returned by
`get_channel_data`: the facts dict (lowercase fact name to a tuple of
fact name, verb and list of values) and the aliases dict (lowercase
alias name to lowercase fact name).  Python dicts are embedded as
association lists with unique keys maintained by the insert operation;
`str.lower` is embedded as ASCII case folding and `str.strip` as
whitespace trimming over the character list.  The fallible external
calls made by `set_channel_data` (the two `bot.db.set_channel_value`
writes, and the `open`/`json.dump` export when `export_dir` is
configured) are represented by an environment of success flags; an
operation's run records its outcome, the final cached in-memory state
(which in the Python code is mutated before `set_channel_data` is
called), and the data written to the primary store and to the export
file, if those writes were reached.
-/

namespace Factoid

/-- ASCII lower casing of one character, the per-character behaviour of
`str.lower` on the basic latin range (mirrors `Char.toLower`). -/
def lowerChar (c : Char) : Char :=
  if h : 65 ≤ c.toNat ∧ c.toNat ≤ 90 then
    Char.ofNatAux (c.toNat + 32) (Or.inl (by omega))
  else c

/-- Embedding of Python `str.lower` on keys: case-fold every character. -/
def lowerStr (s : String) : String :=
  ⟨s.data.map lowerChar⟩

/-- Embedding of Python `str.strip`: drop leading and trailing whitespace. -/
def stripStr (s : String) : String :=
  ⟨((s.data.dropWhile Char.isWhitespace).reverse.dropWhile Char.isWhitespace).reverse⟩

/-- One stored fact: the tuple `(key, verb, values)` kept in the facts
dict, where `canonicalName` is the name with its original casing. -/
structure Fact where
  canonicalName : String
  verb : String
  values : List String
deriving DecidableEq, Repr

/-- Lookup in a Python dict embedded as an association list. -/
def mapLookup {α : Type} (m : List (String × α)) (k : String) : Option α :=
  match m with
  | [] => none
  | (k', v) :: rest => if k' = k then some v else mapLookup rest k

/-- Membership test in a Python dict (the `in` operator). -/
def mapContains {α : Type} (m : List (String × α)) (k : String) : Bool :=
  (mapLookup m k).isSome

/-- Assignment `m[k] = v` in a Python dict: overwrite the entry if the
key is present, append it otherwise. -/
def mapInsert {α : Type} (m : List (String × α)) (k : String) (v : α) : List (String × α) :=
  match m with
  | [] => [(k, v)]
  | (k', v') :: rest => if k' = k then (k, v) :: rest else (k', v') :: mapInsert rest k v

/-- Deletion `del m[k]` in a Python dict. -/
def mapErase {α : Type} (m : List (String × α)) (k : String) : List (String × α) :=
  match m with
  | [] => []
  | (k', v') :: rest => if k' = k then rest else (k', v') :: mapErase rest k

/-- The cached per-channel state: the facts dict and the aliases dict. -/
structure ChannelData where
  facts : List (String × Fact)
  aliases : List (String × String)
deriving DecidableEq, Repr

/-- The distinct `FactError` raise sites of the module, one constructor
per validation failure, each carrying the offending key as raised. -/
inductive FactErr where
  | alreadyDefined (key : String)
  | alreadyAlias (key : String)
  | alreadyHasFacts (key : String)
  | unknownFact (key : String)
  | unknownKey (key : String)
deriving DecidableEq, Repr

/-- Everything an operation can raise: a `FactError`, a failure of the
primary `bot.db.set_channel_value` writes, or a failure of the export
file write in `set_channel_data`. -/
inductive OpError where
  | factErr (e : FactErr)
  | dbFailure
  | exportFailure
deriving DecidableEq, Repr

/-- Result channel of one operation call: normal return or raised error. -/
inductive Outcome where
  | ok
  | err (e : OpError)
deriving DecidableEq, Repr

/-- Success flags for the external calls made by `set_channel_data`:
whether the primary db writes succeed, whether `export_dir` is
configured, and whether the export file write succeeds. -/
structure Env where
  dbOk : Bool
  exportConfigured : Bool
  exportOk : Bool
deriving DecidableEq, Repr

/-- Observable run of one operation: its outcome, the cached in-memory
state afterwards (mutations happen in place before persisting, so this
can differ from the initial state even on a raised error), and the data
written to the primary store and to the export file, when reached. -/
structure OpResult where
  outcome : Outcome
  state : ChannelData
  dbWrite : Option ChannelData
  exportWrite : Option ChannelData
deriving DecidableEq, Repr

/-- A raised `FactError`: the operation exits before any mutation of the
dicts and before `set_channel_data` is called. -/
def fail (d : ChannelData) (e : FactErr) : OpResult :=
  ⟨.err (.factErr e), d, none, none⟩

/-- Embedding of `set_channel_data`: write both dicts to the primary
store, then, if `export_dir` is configured, write the export file.
There is no exception handling: a failing write raises, after any
writes already performed. -/
def set_channel_data (env : Env) (d : ChannelData) : OpResult :=
  if env.dbOk = false then ⟨.err .dbFailure, d, none, none⟩
  else if env.exportConfigured then
    if env.exportOk then ⟨.ok, d, some d, some d⟩
    else ⟨.err .exportFailure, d, some d, none⟩
  else ⟨.ok, d, some d, none⟩

/-- The inline alias resolution `key = aliases[key.lower()]` guarded by
`except KeyError: pass`, as performed by `get_value`, `add_facts` and
`set_alias` (the `resolve` function of the specification). -/
def resolveAlias (aliases : List (String × String)) (key : String) : String :=
  match mapLookup aliases (lowerStr key) with
  | some target => target
  | none => key

/-- Embedding of `get_value`: resolve the key through the aliases dict,
then look it up (lowercased) in the facts dict. -/
def get_value (d : ChannelData) (key : String) : Option Fact :=
  mapLookup d.facts (lowerStr (resolveAlias d.aliases key))

/-- Embedding of `add_facts`.  Each incoming value is stripped; the key
is resolved through the aliases dict.  If a fact exists at the resolved
key: raise `alreadyDefined` unless `also`, else extend the stored values
in place (the shared list referenced by the entry found at the resolved
key) and re-store the tuple under the stored name's lowercase form (the
Python code rebinds `key` to the stored name before the final
assignment; in every state this module produces the two keys coincide).
If no fact exists: store `(key, verb, values)` under the resolved key's
lowercase form, `key` being the resolved key with its given casing.
Finally persist via `set_channel_data`. -/
def add_facts (env : Env) (d : ChannelData) (key verb : String)
    (add : List String) (also : Bool) : OpResult :=
  let add := add.map stripStr
  let key := resolveAlias d.aliases key
  match mapLookup d.facts (lowerStr key) with
  | some f =>
    if also = false then fail d (.alreadyDefined f.canonicalName)
    else
      let f' : Fact := ⟨f.canonicalName, f.verb, f.values ++ add⟩
      set_channel_data env
        { d with facts := mapInsert (mapInsert d.facts (lowerStr key) f')
                            (lowerStr f.canonicalName) f' }
  | none =>
    set_channel_data env
      { d with facts := mapInsert d.facts (lowerStr key) ⟨key, verb, add⟩ }

/-- Embedding of `set_alias`: raise if the alias key is already an alias
or already has facts; resolve the requested target through the aliases
dict (so only alias-to-fact is ever stored); raise if the resolved
target is not a known fact; else store the lowercased entry and persist. -/
def set_alias (env : Env) (d : ChannelData) (key value : String) : OpResult :=
  if mapContains d.aliases (lowerStr key) then fail d (.alreadyAlias key)
  else if mapContains d.facts (lowerStr key) then fail d (.alreadyHasFacts key)
  else
    let value := resolveAlias d.aliases value
    if mapContains d.facts (lowerStr value) = false then fail d (.unknownFact value)
    else set_channel_data env
      { d with aliases := mapInsert d.aliases (lowerStr key) (lowerStr value) }

/-- Embedding of `delete_value`: if the lowercased key names a fact,
delete it and every alias entry whose target equals it; else if it names
an alias, delete only that entry; else raise.  The key is not resolved
through the aliases dict.  Persist on success. -/
def delete_value (env : Env) (d : ChannelData) (key : String) : OpResult :=
  if mapContains d.facts (lowerStr key) then
    set_channel_data env
      ⟨mapErase d.facts (lowerStr key),
       d.aliases.filter (fun p => !(p.2 = lowerStr key))⟩
  else if mapContains d.aliases (lowerStr key) then
    set_channel_data env { d with aliases := mapErase d.aliases (lowerStr key) }
  else fail d (.unknownKey key)

/-- The state of a channel never seen before: two empty dicts. -/
def s0 : ChannelData := ⟨[], []⟩

/-- An environment in which every external write succeeds and no export
directory is configured. -/
def envOk : Env := ⟨true, false, true⟩

/-- One core operation applied to the cached channel state; `P`
constrains the values batch passed to `add_facts`. -/
inductive Step (P : List String → Prop) : ChannelData → ChannelData → Prop where
  | teach : ∀ env d key verb add also, P add →
      Step P d (add_facts env d key verb add also).state
  | addAlias : ∀ env d key value,
      Step P d (set_alias env d key value).state
  | delete : ∀ env d key,
      Step P d (delete_value env d key).state

/-- Channel states reachable from the empty state by core operations
whose teach batches satisfy `P`. -/
inductive Reachable (P : List String → Prop) : ChannelData → Prop where
  | init : Reachable P s0
  | step : ∀ d d', Reachable P d → Step P d d' → Reachable P d'

/-- A sample state holding the single fact `k`. -/
def sF : ChannelData := (add_facts envOk s0 "k" "is" ["x"] false).state

/-- A sample state holding the fact `k` and the alias `a` pointing at it. -/
def sA : ChannelData := (set_alias envOk sF "a" "K").state

/-- The alias invariants of the data model, as one boolean check: every
alias entry's target names an existing fact, its target is not itself an
alias key, and its own key does not also name a fact. -/
def aliasInvariant (d : ChannelData) : Bool :=
  d.aliases.all fun p =>
    mapContains d.facts p.2 && !(mapContains d.aliases p.2) && !(mapContains d.facts p.1)

/-- Boolean check that no stored fact has an empty values list. -/
def valuesNonempty (d : ChannelData) : Bool :=
  d.facts.all fun p => !(p.2.values.isEmpty)

/-- The inductive invariant of the store: every stored fact sits under
the case-folded form of its own canonical name and that storage key is
case-folded; every alias entry has case-folded key and target, its
target names an existing fact, and its key does not name a fact. -/
def StoreInv (d : ChannelData) : Prop :=
  (∀ p ∈ d.facts, lowerStr p.2.canonicalName = p.1 ∧ lowerStr p.1 = p.1) ∧
  (∀ p ∈ d.aliases, lowerStr p.1 = p.1 ∧ lowerStr p.2 = p.2 ∧
    mapContains d.facts p.2 = true ∧ mapContains d.facts p.1 = false)

theorem toNat_lowerChar_of_upper {c : Char} (h : 65 ≤ c.toNat ∧ c.toNat ≤ 90) :
    (lowerChar c).toNat = c.toNat + 32 := by
  simp only [lowerChar, dif_pos h]
  rfl

theorem lowerChar_eq_self {c : Char} (h : ¬(65 ≤ c.toNat ∧ c.toNat ≤ 90)) :
    lowerChar c = c := by
  unfold lowerChar
  exact dif_neg h

theorem lowerChar_idem (c : Char) : lowerChar (lowerChar c) = lowerChar c := by
  by_cases h : 65 ≤ c.toNat ∧ c.toNat ≤ 90
  · have ht : (lowerChar c).toNat = c.toNat + 32 := toNat_lowerChar_of_upper h
    exact lowerChar_eq_self (by omega)
  · rw [lowerChar_eq_self h, lowerChar_eq_self h]

theorem lowerStr_idem (s : String) : lowerStr (lowerStr s) = lowerStr s := by
  cases s with
  | mk data =>
    simp only [lowerStr, List.map_map]
    have hcomp : lowerChar ∘ lowerChar = lowerChar := funext lowerChar_idem
    rw [hcomp]

theorem mapLookup_mem {α : Type} : ∀ {m : List (String × α)} {k : String} {v : α},
    mapLookup m k = some v → (k, v) ∈ m := by
  intro m
  induction m with
  | nil => intro k v h; simp [mapLookup] at h
  | cons p rest ih =>
    intro k v h
    obtain ⟨k', v'⟩ := p
    simp only [mapLookup] at h
    by_cases hk : k' = k
    · rw [if_pos hk] at h
      obtain rfl : v' = v := by injection h
      subst hk
      exact List.mem_cons_self _ _
    · rw [if_neg hk] at h
      exact List.mem_cons_of_mem _ (ih h)

theorem mapContains_of_mem {α : Type} : ∀ {m : List (String × α)} {k : String} {v : α},
    (k, v) ∈ m → mapContains m k = true := by
  intro m
  induction m with
  | nil => intro k v h; cases h
  | cons p rest ih =>
    intro k v h
    obtain ⟨k', v'⟩ := p
    simp only [mapContains, mapLookup]
    by_cases hk : k' = k
    · rw [if_pos hk]; rfl
    · rw [if_neg hk]
      rcases List.mem_cons.mp h with h1 | h1
      · cases h1; exact absurd rfl hk
      · exact ih h1

theorem mapLookup_eq_none {α : Type} {m : List (String × α)} {k : String}
    (h : mapContains m k = false) : mapLookup m k = none := by
  unfold mapContains at h
  cases hl : mapLookup m k with
  | none => rfl
  | some v => rw [hl] at h; cases h

theorem mapContains_eq_true {α : Type} {m : List (String × α)} {k : String} {v : α}
    (h : mapLookup m k = some v) : mapContains m k = true := by
  unfold mapContains
  rw [h]
  rfl

theorem mapLookup_mapInsert_self {α : Type} :
    ∀ (m : List (String × α)) (k : String) (v : α),
    mapLookup (mapInsert m k v) k = some v := by
  intro m
  induction m with
  | nil => intro k v; simp [mapInsert, mapLookup]
  | cons p rest ih =>
    intro k v
    obtain ⟨k', v'⟩ := p
    simp only [mapInsert]
    by_cases hk : k' = k
    · rw [if_pos hk]; simp [mapLookup]
    · rw [if_neg hk]
      simp only [mapLookup]
      rw [if_neg hk]
      exact ih k v

theorem mapLookup_mapInsert_ne {α : Type} :
    ∀ (m : List (String × α)) {k k' : String} (v : α), k' ≠ k →
    mapLookup (mapInsert m k v) k' = mapLookup m k' := by
  intro m
  induction m with
  | nil =>
    intro k k' v hne
    simp only [mapInsert, mapLookup]
    rw [if_neg (fun h => hne h.symm)]
  | cons p rest ih =>
    intro k k' v hne
    obtain ⟨k'', v''⟩ := p
    simp only [mapInsert]
    by_cases hk : k'' = k
    · rw [if_pos hk]
      simp only [mapLookup]
      rw [if_neg (fun h => hne h.symm), if_neg (fun h => hne (hk ▸ h).symm)]
    · rw [if_neg hk]
      simp only [mapLookup]
      by_cases hk2 : k'' = k'
      · rw [if_pos hk2, if_pos hk2]
      · rw [if_neg hk2, if_neg hk2]
        exact ih v hne

theorem mem_mapInsert {α : Type} : ∀ {m : List (String × α)} {k : String} {v : α}
    {p : String × α}, p ∈ mapInsert m k v → p = (k, v) ∨ p ∈ m := by
  intro m
  induction m with
  | nil =>
    intro k v p h
    simp only [mapInsert] at h
    rcases List.mem_cons.mp h with h1 | h1
    · exact Or.inl h1
    · cases h1
  | cons q rest ih =>
    intro k v p h
    obtain ⟨k', v'⟩ := q
    simp only [mapInsert] at h
    by_cases hk : k' = k
    · rw [if_pos hk] at h
      rcases List.mem_cons.mp h with h1 | h1
      · exact Or.inl h1
      · exact Or.inr (List.mem_cons_of_mem _ h1)
    · rw [if_neg hk] at h
      rcases List.mem_cons.mp h with h1 | h1
      · exact Or.inr (h1 ▸ List.mem_cons_self _ _)
      · rcases ih h1 with h2 | h2
        · exact Or.inl h2
        · exact Or.inr (List.mem_cons_of_mem _ h2)

theorem mem_mapErase {α : Type} : ∀ {m : List (String × α)} {k : String}
    {p : String × α}, p ∈ mapErase m k → p ∈ m := by
  intro m
  induction m with
  | nil => intro k p h; cases h
  | cons q rest ih =>
    intro k p h
    obtain ⟨k', v'⟩ := q
    simp only [mapErase] at h
    by_cases hk : k' = k
    · rw [if_pos hk] at h
      exact List.mem_cons_of_mem _ h
    · rw [if_neg hk] at h
      rcases List.mem_cons.mp h with h1 | h1
      · exact h1 ▸ List.mem_cons_self _ _
      · exact List.mem_cons_of_mem _ (ih h1)

theorem mapLookup_mapErase_ne {α : Type} :
    ∀ (m : List (String × α)) {k k' : String}, k' ≠ k →
    mapLookup (mapErase m k) k' = mapLookup m k' := by
  intro m
  induction m with
  | nil => intro k k' _; rfl
  | cons q rest ih =>
    intro k k' hne
    obtain ⟨k'', v''⟩ := q
    simp only [mapErase]
    by_cases hk : k'' = k
    · rw [if_pos hk]
      simp only [mapLookup]
      rw [if_neg (fun h => hne (hk ▸ h).symm)]
    · rw [if_neg hk]
      simp only [mapLookup]
      by_cases hk2 : k'' = k'
      · rw [if_pos hk2, if_pos hk2]
      · rw [if_neg hk2, if_neg hk2]
        exact ih hne

theorem mapContains_mapInsert_of {α : Type} {m : List (String × α)} {k' : String}
    (k : String) (v : α) (h : mapContains m k' = true) :
    mapContains (mapInsert m k v) k' = true := by
  by_cases hk : k' = k
  · subst hk
    unfold mapContains
    rw [mapLookup_mapInsert_self]
    rfl
  · unfold mapContains at h ⊢
    rw [mapLookup_mapInsert_ne m v hk]
    exact h

theorem mapContains_mapInsert_ne {α : Type} {m : List (String × α)} {k k' : String}
    (v : α) (h : k' ≠ k) :
    mapContains (mapInsert m k v) k' = mapContains m k' := by
  unfold mapContains
  rw [mapLookup_mapInsert_ne m v h]

theorem mapContains_mapErase_ne {α : Type} {m : List (String × α)} {k k' : String}
    (h : k' ≠ k) : mapContains (mapErase m k) k' = mapContains m k' := by
  unfold mapContains
  rw [mapLookup_mapErase_ne m h]

theorem set_channel_data_state (env : Env) (d : ChannelData) :
    (set_channel_data env d).state = d := by
  obtain ⟨db, ec, eo⟩ := env
  cases db <;> cases ec <;> cases eo <;> simp [set_channel_data]

theorem set_channel_data_outcome_ne (env : Env) (d : ChannelData) (e : FactErr) :
    (set_channel_data env d).outcome ≠ .err (.factErr e) := by
  obtain ⟨db, ec, eo⟩ := env
  cases db <;> cases ec <;> cases eo <;> simp [set_channel_data]

theorem set_channel_data_ok {env : Env} (d : ChannelData)
    (h1 : env.dbOk = true) (h2 : env.exportConfigured = true → env.exportOk = true) :
    (set_channel_data env d).outcome = .ok ∧ (set_channel_data env d).dbWrite = some d := by
  obtain ⟨db, ec, eo⟩ := env
  subst h1
  cases ec
  · simp [set_channel_data]
  · have h3 : eo = true := h2 rfl
    subst h3
    simp [set_channel_data]

theorem set_channel_data_db_fail {env : Env} (d : ChannelData) (h : env.dbOk = false) :
    set_channel_data env d = ⟨.err .dbFailure, d, none, none⟩ := by
  simp [set_channel_data, h]

theorem set_channel_data_export_fail {env : Env} (d : ChannelData)
    (h1 : env.dbOk = true) (h2 : env.exportConfigured = true) (h3 : env.exportOk = false) :
    set_channel_data env d = ⟨.err .exportFailure, d, some d, none⟩ := by
  simp [set_channel_data, h1, h2, h3]

theorem add_facts_found (env : Env) (d : ChannelData) (key verb : String)
    (add : List String) (also : Bool) {f : Fact}
    (hf : mapLookup d.facts (lowerStr (resolveAlias d.aliases key)) = some f) :
    add_facts env d key verb add also =
      if also = false then fail d (.alreadyDefined f.canonicalName)
      else
        set_channel_data env
          { d with facts := mapInsert (mapInsert d.facts (lowerStr (resolveAlias d.aliases key))
                              ⟨f.canonicalName, f.verb, f.values ++ add.map stripStr⟩)
                              (lowerStr f.canonicalName)
                              ⟨f.canonicalName, f.verb, f.values ++ add.map stripStr⟩ } := by
  simp only [add_facts, hf]

theorem add_facts_none (env : Env) (d : ChannelData) (key verb : String)
    (add : List String) (also : Bool)
    (hf : mapLookup d.facts (lowerStr (resolveAlias d.aliases key)) = none) :
    add_facts env d key verb add also =
      set_channel_data env
        { d with facts := mapInsert d.facts (lowerStr (resolveAlias d.aliases key))
                            ⟨resolveAlias d.aliases key, verb, add.map stripStr⟩ } := by
  simp only [add_facts, hf]

theorem set_alias_already_alias (env : Env) (d : ChannelData) (key value : String)
    (h : mapContains d.aliases (lowerStr key) = true) :
    set_alias env d key value = fail d (.alreadyAlias key) := by
  simp [set_alias, h]

theorem set_alias_already_facts (env : Env) (d : ChannelData) (key value : String)
    (h1 : mapContains d.aliases (lowerStr key) = false)
    (h2 : mapContains d.facts (lowerStr key) = true) :
    set_alias env d key value = fail d (.alreadyHasFacts key) := by
  simp [set_alias, h1, h2]

theorem set_alias_unknown (env : Env) (d : ChannelData) (key value : String)
    (h1 : mapContains d.aliases (lowerStr key) = false)
    (h2 : mapContains d.facts (lowerStr key) = false)
    (h3 : mapContains d.facts (lowerStr (resolveAlias d.aliases value)) = false) :
    set_alias env d key value = fail d (.unknownFact (resolveAlias d.aliases value)) := by
  simp [set_alias, h1, h2, h3]

theorem set_alias_success (env : Env) (d : ChannelData) (key value : String)
    (h1 : mapContains d.aliases (lowerStr key) = false)
    (h2 : mapContains d.facts (lowerStr key) = false)
    (h3 : mapContains d.facts (lowerStr (resolveAlias d.aliases value)) = true) :
    set_alias env d key value = set_channel_data env
      { d with aliases := mapInsert d.aliases (lowerStr key)
                            (lowerStr (resolveAlias d.aliases value)) } := by
  simp [set_alias, h1, h2, h3]

theorem delete_value_fact (env : Env) (d : ChannelData) (key : String)
    (h : mapContains d.facts (lowerStr key) = true) :
    delete_value env d key = set_channel_data env
      ⟨mapErase d.facts (lowerStr key),
       d.aliases.filter (fun p => !(p.2 = lowerStr key))⟩ := by
  simp [delete_value, h]

theorem delete_value_alias (env : Env) (d : ChannelData) (key : String)
    (h1 : mapContains d.facts (lowerStr key) = false)
    (h2 : mapContains d.aliases (lowerStr key) = true) :
    delete_value env d key = set_channel_data env
      { d with aliases := mapErase d.aliases (lowerStr key) } := by
  simp [delete_value, h1, h2]

theorem delete_value_unknown (env : Env) (d : ChannelData) (key : String)
    (h1 : mapContains d.facts (lowerStr key) = false)
    (h2 : mapContains d.aliases (lowerStr key) = false) :
    delete_value env d key = fail d (.unknownKey key) := by
  simp [delete_value, h1, h2]

theorem add_facts_shape (env : Env) (d : ChannelData) (key verb : String)
    (add : List String) (also : Bool) :
    (∃ e, add_facts env d key verb add also = fail d e) ∨
    (∃ d', add_facts env d key verb add also = set_channel_data env d') := by
  cases hf : mapLookup d.facts (lowerStr (resolveAlias d.aliases key)) with
  | none => exact Or.inr ⟨_, add_facts_none env d key verb add also hf⟩
  | some f =>
    by_cases ha : also = false
    · exact Or.inl ⟨.alreadyDefined f.canonicalName,
        by rw [add_facts_found env d key verb add also hf, if_pos ha]⟩
    · exact Or.inr ⟨_, by rw [add_facts_found env d key verb add also hf, if_neg ha]⟩

theorem set_alias_shape (env : Env) (d : ChannelData) (key value : String) :
    (∃ e, set_alias env d key value = fail d e) ∨
    (∃ d', set_alias env d key value = set_channel_data env d') := by
  cases h1 : mapContains d.aliases (lowerStr key) with
  | true => exact Or.inl ⟨_, set_alias_already_alias env d key value h1⟩
  | false =>
    cases h2 : mapContains d.facts (lowerStr key) with
    | true => exact Or.inl ⟨_, set_alias_already_facts env d key value h1 h2⟩
    | false =>
      cases h3 : mapContains d.facts (lowerStr (resolveAlias d.aliases value)) with
      | false => exact Or.inl ⟨_, set_alias_unknown env d key value h1 h2 h3⟩
      | true => exact Or.inr ⟨_, set_alias_success env d key value h1 h2 h3⟩

theorem storeInv_add_facts (env : Env) (d : ChannelData) (key verb : String)
    (add : List String) (also : Bool) (h : StoreInv d) :
    StoreInv (add_facts env d key verb add also).state := by
  obtain ⟨hF, hA⟩ := h
  cases hf : mapLookup d.facts (lowerStr (resolveAlias d.aliases key)) with
  | some f =>
    by_cases ha : also = false
    · rw [add_facts_found env d key verb add also hf, if_pos ha]
      exact ⟨hF, hA⟩
    · rw [add_facts_found env d key verb add also hf, if_neg ha, set_channel_data_state]
      have hmem := mapLookup_mem hf
      have hcf := hF _ hmem
      constructor
      · intro p hp
        rcases mem_mapInsert hp with rfl | hp1
        · exact ⟨rfl, lowerStr_idem _⟩
        · rcases mem_mapInsert hp1 with rfl | hp2
          · exact ⟨hcf.1, hcf.2⟩
          · exact hF _ hp2
      · intro p hp
        have h4 := hA p hp
        have hck : mapContains d.facts (lowerStr (resolveAlias d.aliases key)) = true :=
          mapContains_eq_true hf
        have hpk : p.1 ≠ lowerStr (resolveAlias d.aliases key) := by
          intro he
          rw [← he] at hck
          rw [h4.2.2.2] at hck
          cases hck
        have hpk' : p.1 ≠ lowerStr f.canonicalName := by
          rw [hcf.1]
          exact hpk
        refine ⟨h4.1, h4.2.1, ?_, ?_⟩
        · exact mapContains_mapInsert_of _ _ (mapContains_mapInsert_of _ _ h4.2.2.1)
        · rw [mapContains_mapInsert_ne _ hpk', mapContains_mapInsert_ne _ hpk]
          exact h4.2.2.2
  | none =>
    rw [add_facts_none env d key verb add also hf, set_channel_data_state]
    cases hres : mapLookup d.aliases (lowerStr key) with
    | some t =>
      exfalso
      have hmem := mapLookup_mem hres
      have h4 := hA _ hmem
      have hrk : resolveAlias d.aliases key = t := by simp [resolveAlias, hres]
      rw [hrk] at hf
      rw [h4.2.1] at hf
      have hc := h4.2.2.1
      unfold mapContains at hc
      rw [hf] at hc
      cases hc
    | none =>
      have hrk : resolveAlias d.aliases key = key := by simp [resolveAlias, hres]
      rw [hrk]
      constructor
      · intro p hp
        rcases mem_mapInsert hp with rfl | hp1
        · exact ⟨rfl, lowerStr_idem _⟩
        · exact hF _ hp1
      · intro p hp
        have h4 := hA p hp
        have hpk : p.1 ≠ lowerStr key := by
          intro he
          have hc : mapContains d.aliases (lowerStr key) = true := by
            rw [← he]
            exact mapContains_of_mem hp
          unfold mapContains at hc
          rw [hres] at hc
          cases hc
        refine ⟨h4.1, h4.2.1, mapContains_mapInsert_of _ _ h4.2.2.1, ?_⟩
        rw [mapContains_mapInsert_ne _ hpk]
        exact h4.2.2.2

theorem storeInv_set_alias (env : Env) (d : ChannelData) (key value : String)
    (h : StoreInv d) : StoreInv (set_alias env d key value).state := by
  obtain ⟨hF, hA⟩ := h
  cases h1 : mapContains d.aliases (lowerStr key) with
  | true =>
    rw [set_alias_already_alias env d key value h1]
    exact ⟨hF, hA⟩
  | false =>
    cases h2 : mapContains d.facts (lowerStr key) with
    | true =>
      rw [set_alias_already_facts env d key value h1 h2]
      exact ⟨hF, hA⟩
    | false =>
      cases h3 : mapContains d.facts (lowerStr (resolveAlias d.aliases value)) with
      | false =>
        rw [set_alias_unknown env d key value h1 h2 h3]
        exact ⟨hF, hA⟩
      | true =>
        rw [set_alias_success env d key value h1 h2 h3, set_channel_data_state]
        constructor
        · exact hF
        · intro p hp
          rcases mem_mapInsert hp with rfl | hp1
          · exact ⟨lowerStr_idem _, lowerStr_idem _, h3, h2⟩
          · exact hA p hp1

theorem storeInv_delete_value (env : Env) (d : ChannelData) (key : String)
    (h : StoreInv d) : StoreInv (delete_value env d key).state := by
  obtain ⟨hF, hA⟩ := h
  cases h1 : mapContains d.facts (lowerStr key) with
  | true =>
    rw [delete_value_fact env d key h1, set_channel_data_state]
    constructor
    · intro p hp
      exact hF _ (mem_mapErase hp)
    · intro p hp
      have hp' := List.mem_filter.mp hp
      have h4 := hA p hp'.1
      have hne2 : p.2 ≠ lowerStr key := by simpa using hp'.2
      have hne1 : p.1 ≠ lowerStr key := by
        intro he
        rw [← he] at h1
        rw [h4.2.2.2] at h1
        cases h1
      refine ⟨h4.1, h4.2.1, ?_, ?_⟩
      · rw [mapContains_mapErase_ne hne2]
        exact h4.2.2.1
      · rw [mapContains_mapErase_ne hne1]
        exact h4.2.2.2
  | false =>
    cases h2 : mapContains d.aliases (lowerStr key) with
    | true =>
      rw [delete_value_alias env d key h1 h2, set_channel_data_state]
      constructor
      · exact hF
      · intro p hp
        exact hA p (mem_mapErase hp)
    | false =>
      rw [delete_value_unknown env d key h1 h2]
      exact ⟨hF, hA⟩

theorem storeInv_step {P : List String → Prop} {d d' : ChannelData}
    (h : StoreInv d) (hs : Step P d d') : StoreInv d' := by
  cases hs with
  | teach env _ key verb add also _ => exact storeInv_add_facts env d key verb add also h
  | addAlias env _ key value => exact storeInv_set_alias env d key value h
  | delete env _ key => exact storeInv_delete_value env d key h

theorem reachable_storeInv {P : List String → Prop} {d : ChannelData}
    (h : Reachable P d) : StoreInv d := by
  induction h with
  | init =>
    constructor
    · intro p hp
      cases hp
    · intro p hp
      cases hp
  | step d d' _ hs ih => exact storeInv_step ih hs

theorem storeInv_aliasInvariant {d : ChannelData} (h : StoreInv d) :
    aliasInvariant d = true := by
  unfold aliasInvariant
  rw [List.all_eq_true]
  intro p hp
  have h4 := h.2 p hp
  have hT := h4.2.2.1
  have hD := h4.2.2.2
  have hN : mapContains d.aliases p.2 = false := by
    cases hc : mapContains d.aliases p.2 with
    | false => rfl
    | true =>
      unfold mapContains at hc
      cases hl : mapLookup d.aliases p.2 with
      | none => rw [hl] at hc; cases hc
      | some u =>
        have h5 := h.2 _ (mapLookup_mem hl)
        have h6 := h5.2.2.2
        rw [hT] at h6
        cases h6
  rw [hT, hN, hD]
  rfl

theorem delete_value_shape (env : Env) (d : ChannelData) (key : String) :
    (∃ e, delete_value env d key = fail d e) ∨
    (∃ d', delete_value env d key = set_channel_data env d') := by
  cases h1 : mapContains d.facts (lowerStr key) with
  | true => exact Or.inr ⟨_, delete_value_fact env d key h1⟩
  | false =>
    cases h2 : mapContains d.aliases (lowerStr key) with
    | true => exact Or.inr ⟨_, delete_value_alias env d key h1 h2⟩
    | false => exact Or.inl ⟨_, delete_value_unknown env d key h1 h2⟩

theorem vne_add_facts (env : Env) (d : ChannelData) (key verb : String)
    (add : List String) (also : Bool) (hadd : add ≠ [])
    (h : ∀ p ∈ d.facts, p.2.values ≠ []) :
    ∀ p ∈ (add_facts env d key verb add also).state.facts, p.2.values ≠ [] := by
  cases hf : mapLookup d.facts (lowerStr (resolveAlias d.aliases key)) with
  | some f =>
    by_cases ha : also = false
    · rw [add_facts_found env d key verb add also hf, if_pos ha]
      exact h
    · rw [add_facts_found env d key verb add also hf, if_neg ha, set_channel_data_state]
      intro p hp
      have hfv : f.values ≠ [] := h _ (mapLookup_mem hf)
      rcases mem_mapInsert hp with rfl | hp1
      · intro hc
        rw [List.append_eq_nil] at hc
        exact hfv hc.1
      · rcases mem_mapInsert hp1 with rfl | hp2
        · intro hc
          rw [List.append_eq_nil] at hc
          exact hfv hc.1
        · exact h _ hp2
  | none =>
    rw [add_facts_none env d key verb add also hf, set_channel_data_state]
    intro p hp
    rcases mem_mapInsert hp with rfl | hp1
    · intro hc
      exact hadd (List.map_eq_nil_iff.mp hc)
    · exact h _ hp1

theorem vne_set_alias (env : Env) (d : ChannelData) (key value : String)
    (h : ∀ p ∈ d.facts, p.2.values ≠ []) :
    ∀ p ∈ (set_alias env d key value).state.facts, p.2.values ≠ [] := by
  rcases set_alias_shape env d key value with ⟨e, heq⟩ | ⟨d', heq⟩
  · rw [heq]
    exact h
  · rcases h1 : mapContains d.aliases (lowerStr key) with _ | _
    · rcases h2 : mapContains d.facts (lowerStr key) with _ | _
      · rcases h3 : mapContains d.facts (lowerStr (resolveAlias d.aliases value)) with _ | _
        · rw [set_alias_unknown env d key value h1 h2 h3]
          exact h
        · rw [set_alias_success env d key value h1 h2 h3, set_channel_data_state]
          exact h
      · rw [set_alias_already_facts env d key value h1 h2]
        exact h
    · rw [set_alias_already_alias env d key value h1]
      exact h

theorem vne_delete_value (env : Env) (d : ChannelData) (key : String)
    (h : ∀ p ∈ d.facts, p.2.values ≠ []) :
    ∀ p ∈ (delete_value env d key).state.facts, p.2.values ≠ [] := by
  cases h1 : mapContains d.facts (lowerStr key) with
  | true =>
    rw [delete_value_fact env d key h1, set_channel_data_state]
    intro p hp
    exact h _ (mem_mapErase hp)
  | false =>
    cases h2 : mapContains d.aliases (lowerStr key) with
    | true =>
      rw [delete_value_alias env d key h1 h2, set_channel_data_state]
      exact h
    | false =>
      rw [delete_value_unknown env d key h1 h2]
      exact h

theorem resolveAlias_idem {d : ChannelData} (h : StoreInv d) (key : String) :
    resolveAlias d.aliases (resolveAlias d.aliases key) = resolveAlias d.aliases key := by
  cases hl : mapLookup d.aliases (lowerStr key) with
  | none => simp [resolveAlias, hl]
  | some t =>
    have hrt : resolveAlias d.aliases key = t := by simp [resolveAlias, hl]
    rw [hrt]
    have h4 := h.2 _ (mapLookup_mem hl)
    cases hl2 : mapLookup d.aliases (lowerStr t) with
    | none => simp [resolveAlias, hl2]
    | some u =>
      exfalso
      rw [h4.2.1] at hl2
      have h5 := h.2 _ (mapLookup_mem hl2)
      have h6 := h5.2.2.2
      rw [h4.2.2.1] at h6
      cases h6

theorem add_facts_resolved (env : Env) (d : ChannelData) (key verb : String)
    (add : List String) (also : Bool)
    (h : resolveAlias d.aliases (resolveAlias d.aliases key) = resolveAlias d.aliases key) :
    add_facts env d key verb add also
      = add_facts env d (resolveAlias d.aliases key) verb add also := by
  simp only [add_facts, h]

theorem reach_sF_any : Reachable (fun _ => True) sF :=
  Reachable.step s0 sF Reachable.init
    (Step.teach envOk s0 "k" "is" ["x"] false trivial)

theorem reach_sA_any : Reachable (fun _ => True) sA :=
  Reachable.step sF sA reach_sF_any (Step.addAlias envOk sF "a" "K")

theorem reach_sF_ne : Reachable (fun add => add ≠ []) sF :=
  Reachable.step s0 sF Reachable.init
    (Step.teach envOk s0 "k" "is" ["x"] false (by simp))

/-- C1: for any channel state in which the key is unknown (its case-folded
form is neither an alias key nor a fact key), a successful
`add_facts(key, "is", ["x"], also := false)` returns normally and a
subsequent `get_value(key)` yields the fact `(key, "is", ["x"])`: the
canonical name keeps the key's casing, the verb and the values batch are
stored exactly as given. -/
theorem teach_unknown_key_then_lookup (env : Env) (d : ChannelData) (key : String)
    (hA : mapContains d.aliases (lowerStr key) = false)
    (hF : mapContains d.facts (lowerStr key) = false)
    (hdb : env.dbOk = true)
    (hex : env.exportConfigured = true → env.exportOk = true) :
    (add_facts env d key "is" ["x"] false).outcome = .ok ∧
    get_value (add_facts env d key "is" ["x"] false).state key = some ⟨key, "is", ["x"]⟩ := by
  have hres : resolveAlias d.aliases key = key := by
    simp [resolveAlias, mapLookup_eq_none hA]
  have hF' : mapLookup d.facts (lowerStr (resolveAlias d.aliases key)) = none := by
    rw [hres]
    exact mapLookup_eq_none hF
  rw [add_facts_none env d key "is" ["x"] false hF']
  constructor
  · exact (set_channel_data_ok _ hdb hex).1
  · rw [set_channel_data_state]
    show mapLookup
        (mapInsert d.facts (lowerStr (resolveAlias d.aliases key))
          ⟨resolveAlias d.aliases key, "is", ["x"].map stripStr⟩)
        (lowerStr (resolveAlias d.aliases key)) = some ⟨key, "is", ["x"]⟩
    rw [mapLookup_mapInsert_self, hres]
    rfl

/-- Witness for C1 at the concrete input `envOk`, the empty state `s0`
and the key `NewKey`. -/
theorem teach_unknown_key_then_lookup_witness :
    (add_facts envOk s0 "NewKey" "is" ["x"] false).outcome = .ok ∧
    get_value (add_facts envOk s0 "NewKey" "is" ["x"] false).state "NewKey"
        = some ⟨"NewKey", "is", ["x"]⟩ :=
  teach_unknown_key_then_lookup envOk s0 "NewKey" (by decide) (by decide) rfl (by decide)

/-- C2 counterexample: appending `" y "` to the existing fact `k` stores
the stripped value `"y"`, not `" y "` itself, so the appended values are
not exactly the given batch. -/
theorem teach_append_trims_cx :
    get_value (add_facts envOk sF "k" "was" [" y "] true).state "k"
        = some ⟨"k", "is", ["x", "y"]⟩ ∧
    get_value (add_facts envOk sF "k" "was" [" y "] true).state "k"
        ≠ some ⟨"k", "is", ["x"] ++ [" y "]⟩ := by
  decide

/-- C2 as amended: appending to an existing fact extends its values, in
order, with the whitespace-stripped form of each entry of the incoming
batch, and leaves the stored verb and canonical name unchanged even when
the call passes a different verb or key casing; the aliases map is
untouched. -/
theorem teach_append_existing (env : Env) (d : ChannelData) (key verb : String)
    (add : List String) (f : Fact)
    (hf : mapLookup d.facts (lowerStr (resolveAlias d.aliases key)) = some f) :
    mapLookup (add_facts env d key verb add true).state.facts (lowerStr f.canonicalName)
        = some ⟨f.canonicalName, f.verb, f.values ++ add.map stripStr⟩ ∧
    (add_facts env d key verb add true).state.aliases = d.aliases := by
  rw [add_facts_found env d key verb add true hf, if_neg (by decide), set_channel_data_state]
  constructor
  · exact mapLookup_mapInsert_self _ _ _
  · rfl

/-- Witness for C2's amended theorem on state `sF` with a differently
cased key and a different verb. -/
theorem teach_append_existing_witness :
    mapLookup (add_facts envOk sF "K" "was" ["y"] true).state.facts (lowerStr "k")
        = some ⟨"k", "is", ["x"] ++ ["y"].map stripStr⟩ ∧
    (add_facts envOk sF "K" "was" ["y"] true).state.aliases = sF.aliases :=
  teach_append_existing envOk sF "K" "was" ["y"] ⟨"k", "is", ["x"]⟩ (by decide)

/-- C3: deleting a case-folded key that names a fact erases the fact and
filters out every alias entry targeting it (and succeeds when the
external writes do); deleting a key that names an alias erases only that
alias entry and leaves the facts map intact; deleting a key naming
neither raises the unknown-key error with no mutation and no write. -/
theorem delete_semantics (env : Env) (d : ChannelData) (key : String) :
    (mapContains d.facts (lowerStr key) = true →
      (delete_value env d key).state.facts = mapErase d.facts (lowerStr key) ∧
      (delete_value env d key).state.aliases
          = d.aliases.filter (fun p => !(p.2 = lowerStr key)) ∧
      (∀ p ∈ (delete_value env d key).state.aliases, p.2 ≠ lowerStr key) ∧
      (env.dbOk = true → (env.exportConfigured = true → env.exportOk = true) →
        (delete_value env d key).outcome = .ok)) ∧
    (mapContains d.facts (lowerStr key) = false →
     mapContains d.aliases (lowerStr key) = true →
      (delete_value env d key).state.facts = d.facts ∧
      (delete_value env d key).state.aliases = mapErase d.aliases (lowerStr key)) ∧
    (mapContains d.facts (lowerStr key) = false →
     mapContains d.aliases (lowerStr key) = false →
      delete_value env d key = fail d (.unknownKey key)) := by
  refine ⟨?_, ?_, ?_⟩
  · intro h1
    rw [delete_value_fact env d key h1]
    rw [set_channel_data_state]
    refine ⟨rfl, rfl, ?_, ?_⟩
    · intro p hp
      have hp' := List.mem_filter.mp hp
      simpa using hp'.2
    · intro hdb hex
      exact (set_channel_data_ok _ hdb hex).1
  · intro h1 h2
    rw [delete_value_alias env d key h1 h2, set_channel_data_state]
    exact ⟨rfl, rfl⟩
  · intro h1 h2
    exact delete_value_unknown env d key h1 h2

/-- Witness for C3: the three branches at concrete inputs on the state
`sA` (fact `k`, alias `a` targeting it): deleting `K`, deleting `a`,
deleting the unknown `zzz`. -/
theorem delete_semantics_witness :
    ((delete_value envOk sA "K").state.facts = mapErase sA.facts (lowerStr "K") ∧
     (delete_value envOk sA "K").state.aliases
         = sA.aliases.filter (fun p => !(p.2 = lowerStr "K")) ∧
     (∀ p ∈ (delete_value envOk sA "K").state.aliases, p.2 ≠ lowerStr "K") ∧
     (envOk.dbOk = true → (envOk.exportConfigured = true → envOk.exportOk = true) →
       (delete_value envOk sA "K").outcome = .ok)) ∧
    ((delete_value envOk sA "a").state.facts = sA.facts ∧
     (delete_value envOk sA "a").state.aliases = mapErase sA.aliases (lowerStr "a")) ∧
    (delete_value envOk sA "zzz" = fail sA (.unknownKey "zzz")) :=
  ⟨(delete_semantics envOk sA "K").1 (by decide),
   (delete_semantics envOk sA "a").2.1 (by decide) (by decide),
   (delete_semantics envOk sA "zzz").2.2 (by decide) (by decide)⟩

/-- C4: in every reachable channel state each alias entry targets an
existing fact, never another alias, and no alias key also names a fact;
moreover alias chains are collapsed at creation time (registering an
alias whose requested target is itself an alias `a` with target `t`
stores the entry pointing directly at `t`), and deleting a fact key
removes every alias entry targeting it. -/
theorem alias_fact_invariant :
    (∀ d, Reachable (fun _ => True) d → aliasInvariant d = true) ∧
    (∀ (env : Env) (d : ChannelData) (b a t : String), Reachable (fun _ => True) d →
      mapLookup d.aliases (lowerStr a) = some t →
      mapContains d.aliases (lowerStr b) = false →
      mapContains d.facts (lowerStr b) = false →
      (set_alias env d b a).state.aliases = mapInsert d.aliases (lowerStr b) t) ∧
    (∀ (env : Env) (d : ChannelData) (key : String),
      mapContains d.facts (lowerStr key) = true →
      ∀ p ∈ (delete_value env d key).state.aliases, p.2 ≠ lowerStr key) := by
  refine ⟨?_, ?_, ?_⟩
  · intro d hreach
    exact storeInv_aliasInvariant (reachable_storeInv hreach)
  · intro env d b a t hreach hlook hb1 hb2
    have hSI := reachable_storeInv hreach
    have h4 := hSI.2 _ (mapLookup_mem hlook)
    have hres : resolveAlias d.aliases a = t := by simp [resolveAlias, hlook]
    have h3 : mapContains d.facts (lowerStr (resolveAlias d.aliases a)) = true := by
      rw [hres, h4.2.1]
      exact h4.2.2.1
    rw [set_alias_success env d b a hb1 hb2 h3, set_channel_data_state]
    show mapInsert d.aliases (lowerStr b) (lowerStr (resolveAlias d.aliases a)) = _
    rw [hres, h4.2.1]
  · intro env d key h1 p hp
    rw [delete_value_fact env d key h1, set_channel_data_state] at hp
    have hp' := List.mem_filter.mp hp
    simpa using hp'.2

/-- Witness for C4 on the reachable state `sA`: the invariant holds, the
chain collapse stores `b` pointing straight at `k` when aliasing the
alias `A`, and deleting the fact `K` leaves no alias targeting `k`. -/
theorem alias_fact_invariant_witness :
    aliasInvariant sA = true ∧
    (set_alias envOk sA "b" "A").state.aliases = mapInsert sA.aliases (lowerStr "b") "k" ∧
    (∀ p ∈ (delete_value envOk sA "K").state.aliases, p.2 ≠ lowerStr "K") :=
  ⟨alias_fact_invariant.1 sA reach_sA_any,
   alias_fact_invariant.2.1 envOk sA "b" "A" "k" reach_sA_any
     (by decide) (by decide) (by decide),
   alias_fact_invariant.2.2 envOk sA "K" (by decide)⟩

/-- C10: when a fact exists at the resolved key, an appending
`add_facts` call that hits a primary-store write failure raises that
failure to the caller with nothing written to the store or the export
file, yet the cached in-memory facts map already holds the appended
values: the shared state is mutated before persisting and is not rolled
back. -/
theorem append_survives_db_failure (env : Env) (d : ChannelData) (key verb : String)
    (add : List String) (f : Fact)
    (hf : mapLookup d.facts (lowerStr (resolveAlias d.aliases key)) = some f)
    (hdb : env.dbOk = false) :
    (add_facts env d key verb add true).outcome = .err .dbFailure ∧
    (add_facts env d key verb add true).dbWrite = none ∧
    (add_facts env d key verb add true).exportWrite = none ∧
    mapLookup (add_facts env d key verb add true).state.facts (lowerStr f.canonicalName)
        = some ⟨f.canonicalName, f.verb, f.values ++ add.map stripStr⟩ := by
  rw [add_facts_found env d key verb add true hf, if_neg (by decide),
    set_channel_data_db_fail _ hdb]
  exact ⟨rfl, rfl, rfl, mapLookup_mapInsert_self _ _ _⟩

/-- Witness for C10 on the state `sF` with a failing primary store. -/
theorem append_survives_db_failure_witness :
    (add_facts ⟨false, false, true⟩ sF "k" "is" ["y"] true).outcome = .err .dbFailure ∧
    (add_facts ⟨false, false, true⟩ sF "k" "is" ["y"] true).dbWrite = none ∧
    (add_facts ⟨false, false, true⟩ sF "k" "is" ["y"] true).exportWrite = none ∧
    mapLookup (add_facts ⟨false, false, true⟩ sF "k" "is" ["y"] true).state.facts
        (lowerStr "k")
        = some ⟨"k", "is", ["x"] ++ ["y"].map stripStr⟩ :=
  append_survives_db_failure ⟨false, false, true⟩ sF "k" "is" ["y"]
    ⟨"k", "is", ["x"]⟩ (by decide) rfl

/-- C5: `set_alias` raises the already-an-alias error exactly when the
case-folded alias key is in the aliases map; otherwise it raises the
already-has-facts error exactly when that form names a fact; otherwise,
after resolving the requested target through the aliases map, it raises
the unknown-fact error exactly when the resolved target names no fact;
and in the remaining case it stores the alias entry and succeeds when
the external writes do. -/
theorem set_alias_error_taxonomy (env : Env) (d : ChannelData) (key value : String) :
    ((set_alias env d key value).outcome = .err (.factErr (.alreadyAlias key)) ↔
      mapContains d.aliases (lowerStr key) = true) ∧
    ((set_alias env d key value).outcome = .err (.factErr (.alreadyHasFacts key)) ↔
      (mapContains d.aliases (lowerStr key) = false ∧
       mapContains d.facts (lowerStr key) = true)) ∧
    ((set_alias env d key value).outcome
        = .err (.factErr (.unknownFact (resolveAlias d.aliases value))) ↔
      (mapContains d.aliases (lowerStr key) = false ∧
       mapContains d.facts (lowerStr key) = false ∧
       mapContains d.facts (lowerStr (resolveAlias d.aliases value)) = false)) ∧
    (mapContains d.aliases (lowerStr key) = false →
     mapContains d.facts (lowerStr key) = false →
     mapContains d.facts (lowerStr (resolveAlias d.aliases value)) = true →
      (set_alias env d key value).state.aliases
          = mapInsert d.aliases (lowerStr key) (lowerStr (resolveAlias d.aliases value)) ∧
      (env.dbOk = true → (env.exportConfigured = true → env.exportOk = true) →
        (set_alias env d key value).outcome = .ok)) := by
  cases h1 : mapContains d.aliases (lowerStr key) with
  | true =>
    rw [set_alias_already_alias env d key value h1]
    refine ⟨?_, ?_, ?_, ?_⟩
    · simp [fail, h1]
    · simp [fail, h1]
    · simp [fail, h1]
    · intro ha
      exact Bool.noConfusion ha
  | false =>
    cases h2 : mapContains d.facts (lowerStr key) with
    | true =>
      rw [set_alias_already_facts env d key value h1 h2]
      refine ⟨?_, ?_, ?_, ?_⟩
      · simp [fail, h1]
      · simp [fail, h1, h2]
      · simp [fail, h2]
      · intro _ hb
        exact Bool.noConfusion hb
    | false =>
      cases h3 : mapContains d.facts (lowerStr (resolveAlias d.aliases value)) with
      | false =>
        rw [set_alias_unknown env d key value h1 h2 h3]
        refine ⟨?_, ?_, ?_, ?_⟩
        · simp [fail, h1]
        · simp [fail, h2]
        · simp [fail, h1, h2, h3]
        · intro _ _ hc
          exact Bool.noConfusion hc
      | true =>
        rw [set_alias_success env d key value h1 h2 h3]
        have hne := set_channel_data_outcome_ne env
          ⟨d.facts, mapInsert d.aliases (lowerStr key) (lowerStr (resolveAlias d.aliases value))⟩
        refine ⟨?_, ?_, ?_, ?_⟩
        · constructor
          · intro hh
            exact absurd hh (hne _)
          · intro hh
            exact Bool.noConfusion hh
        · constructor
          · intro hh
            exact absurd hh (hne _)
          · intro hh
            exact Bool.noConfusion hh.2
        · constructor
          · intro hh
            exact absurd hh (hne _)
          · intro hh
            exact Bool.noConfusion hh.2.2
        · intro _ _ _
          refine ⟨?_, ?_⟩
          · rw [set_channel_data_state]
          · intro hdb hexp
            exact (set_channel_data_ok _ hdb hexp).1

/-- Witness for C5 on the state `sA`: each failure raised at an input
meeting its condition, plus the success case. -/
theorem set_alias_error_taxonomy_witness :
    (set_alias envOk sA "A" "k").outcome = .err (.factErr (.alreadyAlias "A")) ∧
    (set_alias envOk sA "K" "a").outcome = .err (.factErr (.alreadyHasFacts "K")) ∧
    (set_alias envOk sA "b" "nope").outcome
        = .err (.factErr (.unknownFact (resolveAlias sA.aliases "nope"))) ∧
    (set_alias envOk sA "b" "A").state.aliases
        = mapInsert sA.aliases (lowerStr "b") (lowerStr (resolveAlias sA.aliases "A")) ∧
    (envOk.dbOk = true → (envOk.exportConfigured = true → envOk.exportOk = true) →
      (set_alias envOk sA "b" "A").outcome = .ok) :=
  ⟨(set_alias_error_taxonomy envOk sA "A" "k").1.mpr (by decide),
   (set_alias_error_taxonomy envOk sA "K" "a").2.1.mpr (by decide),
   (set_alias_error_taxonomy envOk sA "b" "nope").2.2.1.mpr (by decide),
   (set_alias_error_taxonomy envOk sA "b" "A").2.2.2
     (by decide) (by decide) (by decide)⟩

/-- C6: whenever an operation raises a validation error (any
`FactError`), it is the pre-mutation `fail` exit: the cached state is
returned unchanged and neither the primary store nor the export file is
written; in particular `add_facts` on an existing resolved key with
`also := false` raises the already-defined error carrying the stored
canonical name and leaves every lookup unchanged. -/
theorem validation_errors_leave_state (env : Env) (d : ChannelData) :
    (∀ (key verb : String) (add : List String) (also : Bool) (e : FactErr),
      (add_facts env d key verb add also).outcome = .err (.factErr e) →
      add_facts env d key verb add also = fail d e) ∧
    (∀ (key value : String) (e : FactErr),
      (set_alias env d key value).outcome = .err (.factErr e) →
      set_alias env d key value = fail d e) ∧
    (∀ (key : String) (e : FactErr),
      (delete_value env d key).outcome = .err (.factErr e) →
      delete_value env d key = fail d e) ∧
    (∀ (key verb : String) (add : List String) (f : Fact),
      mapLookup d.facts (lowerStr (resolveAlias d.aliases key)) = some f →
      add_facts env d key verb add false = fail d (.alreadyDefined f.canonicalName) ∧
      ∀ k2, get_value (add_facts env d key verb add false).state k2 = get_value d k2) := by
  refine ⟨?_, ?_, ?_, ?_⟩
  · intro key verb add also e h
    rcases add_facts_shape env d key verb add also with ⟨e', heq⟩ | ⟨d', heq⟩
    · rw [heq] at h ⊢
      have he : e' = e := by simpa [fail] using h
      rw [he]
    · rw [heq] at h
      exact absurd h (set_channel_data_outcome_ne env d' e)
  · intro key value e h
    rcases set_alias_shape env d key value with ⟨e', heq⟩ | ⟨d', heq⟩
    · rw [heq] at h ⊢
      have he : e' = e := by simpa [fail] using h
      rw [he]
    · rw [heq] at h
      exact absurd h (set_channel_data_outcome_ne env d' e)
  · intro key e h
    rcases delete_value_shape env d key with ⟨e', heq⟩ | ⟨d', heq⟩
    · rw [heq] at h ⊢
      have he : e' = e := by simpa [fail] using h
      rw [he]
    · rw [heq] at h
      exact absurd h (set_channel_data_outcome_ne env d' e)
  · intro key verb add f hf
    rw [add_facts_found env d key verb add false hf, if_pos rfl]
    exact ⟨rfl, fun k2 => rfl⟩

/-- Witness for C6 on the state `sA`: a failing call of each operation
returns the untouched state, and the already-defined case is exercised
on the existing fact `k` through the cased key `K`. -/
theorem validation_errors_leave_state_witness :
    add_facts envOk sA "k" "is" ["y"] false = fail sA (.alreadyDefined "k") ∧
    set_alias envOk sA "A" "x" = fail sA (.alreadyAlias "A") ∧
    delete_value envOk sA "zz" = fail sA (.unknownKey "zz") ∧
    (add_facts envOk sA "K" "is" ["y"] false = fail sA (.alreadyDefined "k") ∧
     ∀ k2, get_value (add_facts envOk sA "K" "is" ["y"] false).state k2
         = get_value sA k2) :=
  ⟨(validation_errors_leave_state envOk sA).1 "k" "is" ["y"] false
     (.alreadyDefined "k") (by decide),
   (validation_errors_leave_state envOk sA).2.1 "A" "x" (.alreadyAlias "A") (by decide),
   (validation_errors_leave_state envOk sA).2.2.1 "zz" (.unknownKey "zz") (by decide),
   (validation_errors_leave_state envOk sA).2.2.2 "K" "is" ["y"]
     ⟨"k", "is", ["x"]⟩ (by decide)⟩

/-- C7 counterexample: with export configured and the export write
failing, a teach whose primary write succeeded does not report success —
the export failure becomes the operation's outcome. -/
theorem snapshot_failure_cx :
    (add_facts ⟨true, true, false⟩ s0 "k" "is" ["x"] false).dbWrite
        = some (add_facts ⟨true, true, false⟩ s0 "k" "is" ["x"] false).state ∧
    (add_facts ⟨true, true, false⟩ s0 "k" "is" ["x"] false).outcome ≠ .ok := by
  decide

/-- C7 as amended: a failing snapshot export is not caught: for every
mutation that reaches persistence, the primary store write is performed
with the mutated data, no export is written, and the export failure
propagates as the operation's outcome instead of success. -/
theorem snapshot_failure_propagates (env : Env) (d : ChannelData)
    (h1 : env.dbOk = true) (h2 : env.exportConfigured = true) (h3 : env.exportOk = false) :
    (∀ (key verb : String) (add : List String) (also : Bool),
      (add_facts env d key verb add also).dbWrite ≠ none →
      (add_facts env d key verb add also).outcome = .err .exportFailure ∧
      (add_facts env d key verb add also).dbWrite
          = some (add_facts env d key verb add also).state ∧
      (add_facts env d key verb add also).exportWrite = none) ∧
    (∀ (key value : String),
      (set_alias env d key value).dbWrite ≠ none →
      (set_alias env d key value).outcome = .err .exportFailure ∧
      (set_alias env d key value).dbWrite = some (set_alias env d key value).state ∧
      (set_alias env d key value).exportWrite = none) ∧
    (∀ (key : String),
      (delete_value env d key).dbWrite ≠ none →
      (delete_value env d key).outcome = .err .exportFailure ∧
      (delete_value env d key).dbWrite = some (delete_value env d key).state ∧
      (delete_value env d key).exportWrite = none) := by
  refine ⟨?_, ?_, ?_⟩
  · intro key verb add also hw
    rcases add_facts_shape env d key verb add also with ⟨e, heq⟩ | ⟨d', heq⟩
    · rw [heq] at hw
      exact absurd rfl hw
    · rw [heq, set_channel_data_export_fail d' h1 h2 h3]
      exact ⟨rfl, rfl, rfl⟩
  · intro key value hw
    rcases set_alias_shape env d key value with ⟨e, heq⟩ | ⟨d', heq⟩
    · rw [heq] at hw
      exact absurd rfl hw
    · rw [heq, set_channel_data_export_fail d' h1 h2 h3]
      exact ⟨rfl, rfl, rfl⟩
  · intro key hw
    rcases delete_value_shape env d key with ⟨e, heq⟩ | ⟨d', heq⟩
    · rw [heq] at hw
      exact absurd rfl hw
    · rw [heq, set_channel_data_export_fail d' h1 h2 h3]
      exact ⟨rfl, rfl, rfl⟩

/-- Witness for C7's amended theorem on the state `sA` with a failing
export sink, one instance per operation. -/
theorem snapshot_failure_propagates_witness :
    ((add_facts ⟨true, true, false⟩ sA "k" "is" ["y"] true).outcome
        = .err .exportFailure ∧
     (add_facts ⟨true, true, false⟩ sA "k" "is" ["y"] true).dbWrite
        = some (add_facts ⟨true, true, false⟩ sA "k" "is" ["y"] true).state ∧
     (add_facts ⟨true, true, false⟩ sA "k" "is" ["y"] true).exportWrite = none) ∧
    ((set_alias ⟨true, true, false⟩ sA "b" "k").outcome = .err .exportFailure ∧
     (set_alias ⟨true, true, false⟩ sA "b" "k").dbWrite
        = some (set_alias ⟨true, true, false⟩ sA "b" "k").state ∧
     (set_alias ⟨true, true, false⟩ sA "b" "k").exportWrite = none) ∧
    ((delete_value ⟨true, true, false⟩ sA "K").outcome = .err .exportFailure ∧
     (delete_value ⟨true, true, false⟩ sA "K").dbWrite
        = some (delete_value ⟨true, true, false⟩ sA "K").state ∧
     (delete_value ⟨true, true, false⟩ sA "K").exportWrite = none) :=
  ⟨(snapshot_failure_propagates ⟨true, true, false⟩ sA rfl rfl rfl).1
     "k" "is" ["y"] true (by decide),
   (snapshot_failure_propagates ⟨true, true, false⟩ sA rfl rfl rfl).2.1
     "b" "k" (by decide),
   (snapshot_failure_propagates ⟨true, true, false⟩ sA rfl rfl rfl).2.2
     "K" (by decide)⟩

/-- C8 counterexample: teaching an unknown key with an empty values
batch is accepted by the code (no validation), producing a reachable
state whose fact `k` has an empty values list. -/
theorem empty_batch_empty_values_cx :
    Reachable (fun _ => True) (add_facts envOk s0 "k" "is" [] false).state ∧
    get_value (add_facts envOk s0 "k" "is" [] false).state "k" = some ⟨"k", "is", []⟩ :=
  ⟨Reachable.step s0 _ Reachable.init (Step.teach envOk s0 "k" "is" [] false trivial),
   by decide⟩

/-- C8 as amended: in every state reachable by operation sequences in
which each teach call's values batch is a non-empty list, every stored
fact's values list is non-empty (the code itself never checks the batch;
an empty batch does create an empty-valued fact). -/
theorem values_nonempty_of_reachable (d : ChannelData)
    (h : Reachable (fun add => add ≠ []) d) : valuesNonempty d = true := by
  have hvne : ∀ p ∈ d.facts, p.2.values ≠ [] := by
    induction h with
    | init =>
      intro p hp
      cases hp
    | step d d' _ hs ih =>
      cases hs with
      | teach env _ key verb add also hP => exact vne_add_facts env d key verb add also hP ih
      | addAlias env _ key value => exact vne_set_alias env d key value ih
      | delete env _ key => exact vne_delete_value env d key ih
  unfold valuesNonempty
  rw [List.all_eq_true]
  intro p hp
  cases hb : p.2.values.isEmpty with
  | false => rfl
  | true => exact absurd (List.isEmpty_iff.mp hb) (hvne p hp)

/-- Witness for C8's amended theorem on the reachable state `sF`. -/
theorem values_nonempty_of_reachable_witness : valuesNonempty sF = true :=
  values_nonempty_of_reachable sF reach_sF_ne

/-- C9 counterexample: on the state with fact `k` and alias `a` targeting
it, deleting `a` does not resolve the key through the aliases map: it
removes only the alias entry and leaves the fact intact, and its result
differs from the delete of the resolved fact key `k` that the claim
predicts. -/
theorem delete_not_resolved_cx :
    (delete_value envOk sA "a").state = ⟨[("k", ⟨"k", "is", ["x"]⟩)], []⟩ ∧
    (delete_value envOk sA "a").state ≠ (delete_value envOk sA "k").state := by
  decide

/-- C9 as amended: in every reachable state, reads resolve the key
(case-fold plus at most one alias hop) before consulting the facts map,
and `add_facts` behaves exactly as if called with the resolved key; but
`delete_value` applies only case-folding: a key whose folded form is an
alias is never a fact key, and deleting it removes just the alias entry,
leaving the facts map untouched. -/
theorem resolution_read_add_not_delete (d : ChannelData)
    (hreach : Reachable (fun _ => True) d) :
    (∀ key, get_value d key
        = mapLookup d.facts (lowerStr (resolveAlias d.aliases key))) ∧
    (∀ (env : Env) (key verb : String) (add : List String) (also : Bool),
      add_facts env d key verb add also
          = add_facts env d (resolveAlias d.aliases key) verb add also) ∧
    (∀ (env : Env) (key : String), mapContains d.aliases (lowerStr key) = true →
      mapContains d.facts (lowerStr key) = false ∧
      (delete_value env d key).state.facts = d.facts ∧
      (delete_value env d key).state.aliases = mapErase d.aliases (lowerStr key)) := by
  have hSI := reachable_storeInv hreach
  refine ⟨fun key => rfl, ?_, ?_⟩
  · intro env key verb add also
    exact add_facts_resolved env d key verb add also (resolveAlias_idem hSI key)
  · intro env key hc
    cases hl : mapLookup d.aliases (lowerStr key) with
    | none =>
      unfold mapContains at hc
      rw [hl] at hc
      cases hc
    | some t =>
      have h4 := hSI.2 _ (mapLookup_mem hl)
      have h1 : mapContains d.facts (lowerStr key) = false := h4.2.2.2
      refine ⟨h1, ?_, ?_⟩
      · rw [delete_value_alias env d key h1 hc, set_channel_data_state]
      · rw [delete_value_alias env d key h1 hc, set_channel_data_state]

/-- Witness for C9's amended theorem on the reachable state `sA` with
the cased alias key `A`. -/
theorem resolution_read_add_not_delete_witness :
    (∀ key, get_value sA key
        = mapLookup sA.facts (lowerStr (resolveAlias sA.aliases key))) ∧
    (∀ (env : Env) (key verb : String) (add : List String) (also : Bool),
      add_facts env sA key verb add also
          = add_facts env sA (resolveAlias sA.aliases key) verb add also) ∧
    (∀ (env : Env) (key : String), mapContains sA.aliases (lowerStr key) = true →
      mapContains sA.facts (lowerStr key) = false ∧
      (delete_value env sA key).state.facts = sA.facts ∧
      (delete_value env sA key).state.aliases = mapErase sA.aliases (lowerStr key)) :=
  resolution_read_add_not_delete sA reach_sA_any

end Factoid
